import Mathlib

/-!
Verification development for the zaifcli repository (src/main.py).

The Python source is shallowly embedded over exact rationals (ℚ stands for
the Python floats used by the program; every price manipulated by the
claims is an exact decimal, so no float-rounding behaviour is involved in
the statements). Stateful constructs are embedded as explicit state
passing: the credential queue is a FIFO list (front of the list is the
next element handed out by Queue.get), the retry loop is driven by the
finite trace of outcomes its wrapped API call produces, and the gevent
dispatch code is embedded as the list of spawn/join/relist events the main
loop performs, in program order.
-/

deriving instance DecidableEq for Except

namespace Zaifcli

/-- Substring search on lists of characters: true when `p` occurs as a
contiguous run inside the second list.  This is the meaning of the Python
expression `p in s` for strings, used by the retry engine. -/
def containsCharsAux (p : List Char) : List Char → Bool
  | [] => p.isEmpty
  | c :: rest => p.isPrefixOf (c :: rest) || containsCharsAux p rest

/-- Python `pat in s` on strings. -/
def containsSub (pat s : String) : Bool :=
  containsCharsAux pat.toList s.toList

/-- The loop of `gen_float` (src/main.py lines 43-52) after parsing:
`asc = True; if start > stop: asc = False`, then
`for i in range(n): price = start + step * i;
 if asc and stop <= price: break; if not asc and price <= stop: break;
 yield price`.
The first argument of the recursion is the number of loop iterations still
allowed (`n - i`), the second is the current loop counter `i`. -/
def gen_float_from (start stop step : ℚ) : ℕ → ℕ → List ℚ
  | 0, _ => []
  | m + 1, i =>
    let price := start + step * (i : ℚ)
    if ¬ start > stop then
      if stop ≤ price then [] else price :: gen_float_from start stop step m (i + 1)
    else
      if price ≤ stop then [] else price :: gen_float_from start stop step m (i + 1)

/-- `gen_float` (src/main.py lines 24-52) on a parsed sweep expression
`start:stop:step,n`: the list of values the generator yields.  (The
string-splitting front end of the source function only extracts these four
numbers; an absent `,count` part means `n = sys.maxsize`.) -/
def gen_float (start stop step : ℚ) (n : ℕ) : List ℚ :=
  gen_float_from start stop step n 0

/-- Python `int(q)`: truncation toward zero. -/
def truncQ (q : ℚ) : ℤ :=
  if 0 ≤ q then ⌊q⌋ else ⌈q⌉

/-- `round_price` (src/main.py lines 67-71):
the source tests the pair against btc_jpy and returns `int(price)`, otherwise
`return int(price * 1e4) / 1e4`.  (The `assert currency_pair` at line 68
only rejects the empty string and cannot fire on the values the program
passes.) -/
def round_price (currency_pair : String) (price : ℚ) : ℚ :=
  if currency_pair = "btc_jpy" then (truncQ price : ℚ)
  else (truncQ (price * 10000) : ℚ) / 10000

/-- A credential pair `(key, secret)` as stored in the pool queue. -/
abbrev Credential := String × String

/-- `CredentialPool.get_credential` (src/main.py lines 92-100) run around a
body: `credential = self.q.get(); yield credential` inside `try`, and
`finally: if credential: self.q.put(credential)`.  The queue is the FIFO
list; `Queue.get` takes the front, `Queue.put` appends at the back.  The
body receives the credential and either returns a value or raises, which
the embedding renders as `Except`.  On the empty queue `Queue.get` blocks
forever and the scope never produces anything, rendered as `none`.  The
`if credential:` guard in the source is always true on the 2-tuples the
pool stores, so the put-back is unconditional here. -/
def get_credential {α ε : Type} (pool : List Credential)
    (body : Credential → Except ε α) : Option (Except ε α) × List Credential :=
  match pool with
  | [] => (none, [])
  | c :: rest => (some (body c), rest ++ [c])

/-- The state of the credential configuration file read by
`CredentialPool.load_credentials` (src/main.py lines 84-90). -/
inductive CredentialFile
  | missing
  | malformed
  | wellFormed (pairs : List Credential)

/-- The exception escaping pool construction. -/
inductive LoadErr
  | fileNotFound
  | yamlError
deriving DecidableEq

/-- Result of `load_credentials` together with whether the
`logger.critical` call at line 89 ran. -/
structure LoadResult where
  outcome : Except LoadErr (List Credential)
  criticalLogged : Bool
deriving DecidableEq

/-- `CredentialPool.load_credentials` (src/main.py lines 84-90): a missing
file is caught as `FileNotFoundError`, logged critical and re-raised; a
malformed file makes `yaml.load` raise, which the `except` clause does not
catch, so it propagates without the critical log; a well-formed file
yields its list of pairs. -/
def load_credentials : CredentialFile → LoadResult
  | CredentialFile.missing => ⟨Except.error LoadErr.fileNotFound, true⟩
  | CredentialFile.malformed => ⟨Except.error LoadErr.yamlError, false⟩
  | CredentialFile.wellFormed l => ⟨Except.ok l, false⟩

/-- `CredentialPool.__init__` (src/main.py lines 75-82): load the
credentials, then fill the queue with `self.credentials[:n]`.  The result
is the queue contents, or the propagated loading error. -/
def credential_pool_init (file : CredentialFile) (n : ℕ) :
    Except LoadErr (List Credential) :=
  match (load_credentials file).outcome with
  | Except.error e => Except.error e
  | Except.ok creds => Except.ok (creds.take n)

/-- The classification a `ZaifApiError` message receives in the `elif`
chain of `retry` (src/main.py lines 146-174), in the priority order of the
source. -/
inductive MsgClass
  | rateWait
  | inventory
  | fatal
  | unknown
deriving DecidableEq

/-- The `elif` chain of `retry` (src/main.py lines 149-174) as a message
classifier.  Matching is substring containment, tried in source order. -/
def classify_message (s : String) : MsgClass :=
  if containsSub "time wait restriction, please try later." s then MsgClass.rateWait
  else if containsSub "Sorry, inventory is out of order" s then MsgClass.inventory
  else if containsSub "insufficient funds" s then MsgClass.fatal
  else if containsSub "Insufficient margin" s then MsgClass.fatal
  else if containsSub "order not found" s then MsgClass.fatal
  else if containsSub "order already closed" s then MsgClass.fatal
  else if containsSub "already ordered" s then MsgClass.fatal
  else if containsSub "max position count is" s then MsgClass.fatal
  else if containsSub "position still remaining" s then MsgClass.fatal
  else MsgClass.unknown

/-- One invocation of the wrapped API call `fn(*_args, **_kwargs)` inside
`retry`: it returns a value, raises a `ZaifApiError` carrying a message,
or raises a `ProxyError`. -/
inductive Outcome
  | success (v : ℕ)
  | apiError (s : String)
  | proxyError
deriving DecidableEq

/-- What a (partial) run of the retry loop did: the terminal result if one
was reached before the outcome trace ran out (`Except.ok` for a returned
value, `Except.error` for a propagated message), the number of call
attempts made, and the total seconds slept. -/
structure RunStat where
  result : Option (Except String ℕ)
  attempts : ℕ
  slept : ℚ
deriving DecidableEq

/-- The `while True` loop of `retry` (src/main.py lines 139-177), driven
by the trace of outcomes of its wrapped call.  `seconds` is reset to
`interval` at the top of each iteration; a success returns before the
sleep; the rate-wait class and the tolerated inventory class raise the
sleep to `interval * 10`; the fatal classes and the untolerated inventory
class re-raise before the sleep; unknown application errors and
`ProxyError` keep the short sleep and loop. -/
def retry_loop (retry_out_of_inventory : Bool) (interval : ℚ) :
    List Outcome → RunStat
  | [] => ⟨none, 0, 0⟩
  | Outcome.success v :: _ => ⟨some (Except.ok v), 1, 0⟩
  | Outcome.proxyError :: rest =>
    let r := retry_loop retry_out_of_inventory interval rest
    ⟨r.result, r.attempts + 1, r.slept + interval⟩
  | Outcome.apiError s :: rest =>
    match classify_message s with
    | MsgClass.rateWait =>
      let r := retry_loop retry_out_of_inventory interval rest
      ⟨r.result, r.attempts + 1, r.slept + interval * 10⟩
    | MsgClass.inventory =>
      if retry_out_of_inventory then
        let r := retry_loop retry_out_of_inventory interval rest
        ⟨r.result, r.attempts + 1, r.slept + interval * 10⟩
      else ⟨some (Except.error s), 1, 0⟩
    | MsgClass.fatal => ⟨some (Except.error s), 1, 0⟩
    | MsgClass.unknown =>
      let r := retry_loop retry_out_of_inventory interval rest
      ⟨r.result, r.attempts + 1, r.slept + interval⟩

/-- `retry` (src/main.py lines 133-177): the whole call runs inside
`with credential_pool.get_credential()`, so one credential is taken from
the front of the queue for the duration and put back at the back on every
exit path.  Result: what the loop did, and the queue contents afterwards. -/
def retry (retry_out_of_inventory : Bool) (interval : ℚ)
    (pool : List Credential) (trace : List Outcome) :
    Option RunStat × List Credential :=
  match pool with
  | [] => (none, [])
  | c :: rest => (some (retry_loop retry_out_of_inventory interval trace), rest ++ [c])

/-- The `params` mapping built from the command line `key=value` arguments
(src/main.py lines 181-191), restricted to the keys the dispatch loop
reads or overwrites.  `none` means the key is absent from the mapping. -/
structure BaseParams where
  currency_pair : Option String
  price : Option ℚ
  limit : Option ℚ
  stop : Option ℚ
deriving DecidableEq

/-- One entry of the listing returned by `print_items`, restricted to the
fields the dispatch loop reads: `id`, `currency_pair`, `amount` and the
optional `amount_done` (absent on plain orders). -/
structure Item where
  id : ℕ
  currency_pair : String
  amount : ℚ
  amount_done : Option ℚ
deriving DecidableEq

/-- The keyword mapping handed to `change_position` by the update branch
(src/main.py lines 254-263). -/
structure UpdateParams where
  leverage_id : ℕ
  currency_pair : Option String
  price : Option ℚ
  limit : Option ℚ
  stop : Option ℚ
deriving DecidableEq

/-- One of the statements
`price and update_params.update(price=round_price(currency_pair, price))`
(src/main.py lines 261-263): the field is overwritten with the normalized
value exactly when the swept value is truthy (present and nonzero);
otherwise the mapping keeps whatever the base parameters held. -/
def update_field (old : Option ℚ) (cp : String) (v : Option ℚ) : Option ℚ :=
  match v with
  | none => old
  | some x => if x = 0 then old else some (round_price cp x)

/-- The body of the update branch (src/main.py lines 252-263): the update
mapping starts as a deep copy of the base parameters, `currency_pair` is
deleted in leverage mode, the identifier key is set to the item id,
`price` is forced to None when the amount_done field of the item equals
its amount field, and then the three truthiness-guarded update statements
write price, limit and stop, normalizing with the `currency_pair` of the
item itself. -/
def build_update_params (leverage : Bool) (base : BaseParams) (x : Item)
    (price limit stop : Option ℚ) : UpdateParams :=
  let price := if x.amount_done = some x.amount then none else price
  { leverage_id := x.id
  , currency_pair := if leverage then none else base.currency_pair
  , price := update_field base.price x.currency_pair price
  , limit := update_field base.limit x.currency_pair limit
  , stop := update_field base.stop x.currency_pair stop }

/-- A unit of work handed to `gevent.spawn` by the dispatch loop: a cancel
call (identifier plus the carried parameters, whose only loop-relevant
field is the possibly deleted `currency_pair`), or an update call. -/
inductive Task
  | cancel (id : ℕ) (currency_pair : Option String)
  | update (u : UpdateParams)
deriving DecidableEq

/-- True on update tasks. -/
def Task.isUpdate : Task → Bool
  | Task.update _ => true
  | _ => false

/-- The observable scheduling actions of the dispatch code, in program
order: `spawn t` is the `gevent.spawn` call creating `t`, `join t` is the
completion of `t` inside a `gevent.joinall` barrier, and `relist` is the
re-fetching `print_items(retry(api, method, **params))` call after all
dispatch (src/main.py line 272). -/
inductive Event
  | spawn (t : Task)
  | join (t : Task)
  | relist
deriving DecidableEq

/-- The `for i, x in enumerate(items, 1)` dispatch loop of `main`
(src/main.py lines 235-270), as the list of events it performs.  The
arguments after the item list are: the 1-based loop counter, the states of
the price, limit and stop sweep generators (the list of values each will
still yield; an empty list is an exhausted generator whose `next` raises
`StopIteration`), and the current `g_list`.  A cancel index wins over an
update index (`if ... elif ...`); an update index pulls one value from
each generator and exhaustion logs and `break`s out of the loop; after
each iteration serial mode joins and clears `g_list`; after the loop
parallel mode joins the remaining `g_list`. -/
def dispatch_loop (serial leverage : Bool) (base : BaseParams)
    (cancelIdx updateIdx : List ℕ) :
    List Item → ℕ → List (Option ℚ) → List (Option ℚ) → List (Option ℚ) →
    List Task → List Event
  | [], _, _, _, _, glist => if serial then [] else glist.map Event.join
  | x :: rest, i, pg, lg, sg, glist =>
    if i ∈ cancelIdx then
      let t := Task.cancel x.id (if leverage then none else base.currency_pair)
      Event.spawn t ::
        (if serial then
          ((glist ++ [t]).map Event.join) ++
            dispatch_loop serial leverage base cancelIdx updateIdx rest (i + 1) pg lg sg []
        else
          dispatch_loop serial leverage base cancelIdx updateIdx rest (i + 1) pg lg sg
            (glist ++ [t]))
    else if i ∈ updateIdx then
      match pg, lg, sg with
      | p :: pgr, l :: lgr, s :: sgr =>
        let t := Task.update (build_update_params leverage base x p l s)
        Event.spawn t ::
          (if serial then
            ((glist ++ [t]).map Event.join) ++
              dispatch_loop serial leverage base cancelIdx updateIdx rest (i + 1) pgr lgr sgr []
          else
            dispatch_loop serial leverage base cancelIdx updateIdx rest (i + 1) pgr lgr sgr
              (glist ++ [t]))
      | _, _, _ => if serial then [] else glist.map Event.join
    else
      if serial then
        (glist.map Event.join) ++
          dispatch_loop serial leverage base cancelIdx updateIdx rest (i + 1) pg lg sg []
      else
        dispatch_loop serial leverage base cancelIdx updateIdx rest (i + 1) pg lg sg glist

/-- The tasks the dispatch loop decides to spawn, in order, independent of
the serial flag: one cancel task per cancel-selected index, one update
task per update-selected index as long as all three generators still
yield, truncated at the first exhaustion. -/
def task_list (leverage : Bool) (base : BaseParams)
    (cancelIdx updateIdx : List ℕ) :
    List Item → ℕ → List (Option ℚ) → List (Option ℚ) → List (Option ℚ) →
    List Task
  | [], _, _, _, _ => []
  | x :: rest, i, pg, lg, sg =>
    if i ∈ cancelIdx then
      Task.cancel x.id (if leverage then none else base.currency_pair) ::
        task_list leverage base cancelIdx updateIdx rest (i + 1) pg lg sg
    else if i ∈ updateIdx then
      match pg, lg, sg with
      | p :: pgr, l :: lgr, s :: sgr =>
        Task.update (build_update_params leverage base x p l s) ::
          task_list leverage base cancelIdx updateIdx rest (i + 1) pgr lgr sgr
      | _, _, _ => []
    else task_list leverage base cancelIdx updateIdx rest (i + 1) pg lg sg

/-- The whole `method == get_method` branch of `main` after the initial
listing (src/main.py lines 233-272): run the dispatch loop from index 1
with an empty `g_list`, then, when any selection was given, perform the
re-listing call. -/
def main_dispatch (serial leverage : Bool) (base : BaseParams)
    (cancelIdx updateIdx : List ℕ) (items : List Item)
    (pg lg sg : List (Option ℚ)) : List Event :=
  dispatch_loop serial leverage base cancelIdx updateIdx items 1 pg lg sg [] ++
    (if cancelIdx ≠ [] ∨ updateIdx ≠ [] then [Event.relist] else [])

/-- The tasks spawned during a run, read off the event list. -/
def spawned (es : List Event) : List Task :=
  es.filterMap fun e =>
    match e with
    | Event.spawn t => some t
    | _ => none

/-- Concrete data for the sweep-exhaustion scenario: an empty base
parameter mapping. -/
def base0 : BaseParams := ⟨none, none, none, none⟩

/-- Concrete data: five listed positions. -/
def items0 : List Item :=
  [⟨11, "btc_jpy", 1, none⟩, ⟨12, "btc_jpy", 1, none⟩, ⟨13, "btc_jpy", 1, none⟩,
   ⟨14, "btc_jpy", 1, none⟩, ⟨15, "btc_jpy", 1, none⟩]

/-- Concrete data: a price generator that yields twice and is then
exhausted. -/
def pg0 : List (Option ℚ) := [some 100, some 102]

/-- Concrete data: limit and stop generators yielding null markers twice. -/
def lg0 : List (Option ℚ) := [none, none]

/-- C1: every checkout through `get_credential` removes exactly one
credential from the front of the queue, hands it to the body, and puts it
back at the back on every exit path: the pool after the scope is the
rotation of the pool before it, a permutation of the same length, and it
does not depend on whether the body returned or raised (two arbitrary
bodies leave the same pool), so pool size plus checked-out count is
preserved by every checkout. -/
theorem get_credential_spec {α ε : Type} (c : Credential) (pool : List Credential)
    (body bodyAlt : Credential → Except ε α) :
    (get_credential (c :: pool) body).1 = some (body c)
    ∧ (get_credential (c :: pool) body).2 = pool ++ [c]
    ∧ List.Perm ((get_credential (c :: pool) body).2) (c :: pool)
    ∧ ((get_credential (c :: pool) body).2).length = (c :: pool).length
    ∧ (get_credential (c :: pool) body).2 = (get_credential (c :: pool) bodyAlt).2 := by
  refine ⟨rfl, rfl, ?_, by simp [get_credential], rfl⟩
  simp only [get_credential]
  exact List.perm_append_singleton c pool

/-- C2: when the wrapped call fails with a message the `elif` chain
classifies as fatal (insufficient funds, Insufficient margin, order not
found, order already closed, already ordered, max position count, position
still remaining), the retry loop makes exactly one attempt, sleeps zero
seconds, propagates that error, and the credential goes back into the
pool. -/
theorem retry_fatal_spec (s : String) (h : classify_message s = MsgClass.fatal)
    (flag : Bool) (interval : ℚ) (rest : List Outcome)
    (c : Credential) (pool : List Credential) :
    retry_loop flag interval (Outcome.apiError s :: rest)
        = ⟨some (Except.error s), 1, 0⟩
    ∧ (retry flag interval (c :: pool) (Outcome.apiError s :: rest)).2 = pool ++ [c]
    ∧ List.Perm ((retry flag interval (c :: pool) (Outcome.apiError s :: rest)).2)
        (c :: pool) := by
  refine ⟨?_, rfl, by simp only [retry]; exact List.perm_append_singleton c pool⟩
  simp [retry_loop, h]

/-- Witness for C2 at the message "insufficient funds". -/
theorem retry_fatal_spec_witness :
    retry_loop false 1 [Outcome.apiError "insufficient funds"]
      = ⟨some (Except.error "insufficient funds"), 1, 0⟩ :=
  (retry_fatal_spec "insufficient funds" (by rfl) false 1 [] ("key", "secret") []).1

/-- C7: when the wrapped call fails with the inventory-exhaustion message
(the source matches the full text "Sorry, inventory is out of order"),
the loop with the `--retry_out_of_inventory` flag set sleeps
`interval * 10`, counts one more attempt, and continues with the rest of
the trace; without the flag it propagates the error after exactly one
attempt and no sleep. -/
theorem retry_inventory_spec (s : String)
    (h : classify_message s = MsgClass.inventory)
    (interval : ℚ) (rest : List Outcome) :
    retry_loop true interval (Outcome.apiError s :: rest)
        = ⟨(retry_loop true interval rest).result,
           (retry_loop true interval rest).attempts + 1,
           (retry_loop true interval rest).slept + interval * 10⟩
    ∧ retry_loop false interval (Outcome.apiError s :: rest)
        = ⟨some (Except.error s), 1, 0⟩ := by
  constructor <;> simp [retry_loop, h]

/-- Witness for C7 at the exact source message. -/
theorem retry_inventory_spec_witness :
    retry_loop true 1 [Outcome.apiError "Sorry, inventory is out of order"]
      = ⟨(retry_loop true 1 ([] : List Outcome)).result,
         (retry_loop true 1 ([] : List Outcome)).attempts + 1,
         (retry_loop true 1 ([] : List Outcome)).slept + 1 * 10⟩ :=
  (retry_inventory_spec "Sorry, inventory is out of order" (by rfl) 1 []).1

/-- C4 (amended): a missing credential file is fatal at startup, logged
critical and re-raised; a malformed file is fatal and propagated, though
without the critical log of the pool; a well-formed file always constructs the
pool, filling the queue with the first `n` pairs of the file — in
particular a well-formed file with zero pairs starts the process with an
empty pool. -/
theorem credential_pool_init_spec (n : ℕ) (l : List Credential) :
    credential_pool_init CredentialFile.missing n = Except.error LoadErr.fileNotFound
    ∧ (load_credentials CredentialFile.missing).criticalLogged = true
    ∧ credential_pool_init CredentialFile.malformed n = Except.error LoadErr.yamlError
    ∧ (load_credentials CredentialFile.malformed).criticalLogged = false
    ∧ credential_pool_init (CredentialFile.wellFormed l) n = Except.ok (l.take n) :=
  ⟨rfl, rfl, rfl, rfl, rfl⟩

/-- C4 counterexample: a well-formed configuration with an empty list of
pairs constructs the pool successfully with zero usable credentials, so
the process does start with an empty pool; moreover the malformed case
propagates without the critical log of the pool, so not every loading failure
is logged by the pool. -/
theorem credential_pool_zero_start_cex :
    credential_pool_init (CredentialFile.wellFormed []) 100 = Except.ok []
    ∧ (load_credentials CredentialFile.malformed).criticalLogged = false :=
  ⟨rfl, rfl⟩

/-- The successor step of the generator loop, with the direction test
`asc = not (start > stop)` of the source rewritten as `start ≤ stop`. -/
lemma gen_float_from_succ (start stop step : ℚ) (m i : ℕ) :
    gen_float_from start stop step (m + 1) i =
      if start ≤ stop then
        (if stop ≤ start + step * (i : ℚ) then []
         else (start + step * (i : ℚ)) :: gen_float_from start stop step m (i + 1))
      else
        (if start + step * (i : ℚ) ≤ stop then []
         else (start + step * (i : ℚ)) :: gen_float_from start stop step m (i + 1)) := by
  rw [gen_float_from]
  by_cases hd : start ≤ stop
  · rw [if_pos (not_lt.mpr hd), if_pos hd]
  · rw [if_neg fun hc => hd (not_lt.mp hc), if_neg hd]

/-- The generator never yields more values than the loop bound. -/
lemma gen_float_from_length_le (start stop step : ℚ) :
    ∀ (n i : ℕ), (gen_float_from start stop step n i).length ≤ n := by
  intro n
  induction n with
  | zero => intro i; simp [gen_float_from]
  | succ m ih =>
    intro i
    rw [gen_float_from_succ]
    by_cases hd : start ≤ stop <;>
      simp only [if_pos, if_neg, hd, ite_true, ite_false]
    · by_cases hb : stop ≤ start + step * (i : ℚ)
      · simp [hb]
      · simp only [if_neg hb, List.length_cons]
        exact Nat.succ_le_succ (ih (i + 1))
    · by_cases hb : start + step * (i : ℚ) ≤ stop
      · simp [hb]
      · simp only [if_neg hb, List.length_cons]
        exact Nat.succ_le_succ (ih (i + 1))

/-- Every yielded value is the arithmetic progression at its position and
lies strictly on the near side of the stop threshold. -/
lemma gen_float_from_get (start stop step : ℚ) :
    ∀ (n i j : ℕ) (v : ℚ), (gen_float_from start stop step n i)[j]? = some v →
      v = start + step * ((i + j : ℕ) : ℚ)
      ∧ (if start ≤ stop then v < stop else stop < v) := by
  intro n
  induction n with
  | zero => intro i j v hv; simp [gen_float_from] at hv
  | succ m ih =>
    intro i j v hv
    rw [gen_float_from_succ] at hv
    by_cases hd : start ≤ stop
    · simp only [if_pos hd] at hv ⊢
      by_cases hb : stop ≤ start + step * (i : ℚ)
      · simp only [if_pos hb] at hv
        simp at hv
      · simp only [if_neg hb] at hv
        cases j with
        | zero =>
          simp only [List.getElem?_cons_zero, Option.some_inj] at hv
          subst hv
          exact ⟨by norm_num, not_le.mp hb⟩
        | succ k =>
          simp only [List.getElem?_cons_succ] at hv
          have hrec := ih (i + 1) k v hv
          have hik : (i + 1) + k = i + (k + 1) := by omega
          rw [hik] at hrec
          simp only [if_pos hd] at hrec
          exact hrec
    · simp only [if_neg hd] at hv ⊢
      by_cases hb : start + step * (i : ℚ) ≤ stop
      · simp only [if_pos hb] at hv
        simp at hv
      · simp only [if_neg hb] at hv
        cases j with
        | zero =>
          simp only [List.getElem?_cons_zero, Option.some_inj] at hv
          subst hv
          exact ⟨by norm_num, not_le.mp hb⟩
        | succ k =>
          simp only [List.getElem?_cons_succ] at hv
          have hrec := ih (i + 1) k v hv
          have hik : (i + 1) + k = i + (k + 1) := by omega
          rw [hik] at hrec
          simp only [if_neg hd] at hrec
          exact hrec

/-- When the generator yields fewer values than the loop bound, the very
next value of the progression already reaches or passes the stop
threshold: the loop stopped at the first passing element. -/
lemma gen_float_from_stops (start stop step : ℚ) :
    ∀ (n i : ℕ), (gen_float_from start stop step n i).length < n →
      (if start ≤ stop
       then stop ≤ start + step *
         ((i + (gen_float_from start stop step n i).length : ℕ) : ℚ)
       else start + step *
         ((i + (gen_float_from start stop step n i).length : ℕ) : ℚ) ≤ stop) := by
  intro n
  induction n with
  | zero => intro i h; exact absurd h (Nat.not_lt_zero _)
  | succ m ih =>
    intro i
    by_cases hd : start ≤ stop
    · rw [gen_float_from_succ]
      simp only [if_pos hd]
      by_cases hb : stop ≤ start + step * (i : ℚ)
      · simp only [if_pos hb]
        intro _
        simpa using hb
      · simp only [if_neg hb, List.length_cons]
        intro h
        have h2 : (gen_float_from start stop step m (i + 1)).length < m :=
          Nat.lt_of_succ_lt_succ h
        have hrec := ih (i + 1) h2
        simp only [if_pos hd] at hrec
        have hik : (i + 1) + (gen_float_from start stop step m (i + 1)).length
            = i + ((gen_float_from start stop step m (i + 1)).length + 1) := by omega
        rw [hik] at hrec
        exact hrec
    · rw [gen_float_from_succ]
      simp only [if_neg hd]
      by_cases hb : start + step * (i : ℚ) ≤ stop
      · simp only [if_pos hb]
        intro _
        simpa using hb
      · simp only [if_neg hb, List.length_cons]
        intro h
        have h2 : (gen_float_from start stop step m (i + 1)).length < m :=
          Nat.lt_of_succ_lt_succ h
        have hrec := ih (i + 1) h2
        simp only [if_neg hd] at hrec
        have hik : (i + 1) + (gen_float_from start stop step m (i + 1)).length
            = i + ((gen_float_from start stop step m (i + 1)).length + 1) := by omega
        rw [hik] at hrec
        exact hrec

/-- C3: on a parsed sweep expression `start:stop:step,count` the generated
sequence has length at most `count`, its j-th element is exactly
`start + step * j` and lies strictly on the near side of `stop` in the
direction of the progression (ascending when `start ≤ stop`, descending
otherwise), the sequence stops exactly at the first element that reaches
or passes `stop` (when it is shorter than `count`, the next value of the
progression already passes), and in particular the sweep `100:110:2,10`
yields `[100, 102, 104, 106, 108]`. -/
theorem gen_float_sweep_spec (start stop step : ℚ) (n : ℕ) :
    (gen_float start stop step n).length ≤ n
    ∧ (∀ (j : ℕ) (v : ℚ), (gen_float start stop step n)[j]? = some v →
        v = start + step * (j : ℚ)
        ∧ (if start ≤ stop then v < stop else stop < v))
    ∧ ((gen_float start stop step n).length < n →
        (if start ≤ stop
         then stop ≤ start + step * ((gen_float start stop step n).length : ℚ)
         else start + step * ((gen_float start stop step n).length : ℚ) ≤ stop))
    ∧ gen_float 100 110 2 10 = [100, 102, 104, 106, 108] := by
  refine ⟨gen_float_from_length_le start stop step n 0, ?_, ?_,
    by norm_num [gen_float, gen_float_from]⟩
  · intro j v hv
    have := gen_float_from_get start stop step n 0 j v hv
    simpa using this
  · intro h
    have := gen_float_from_stops start stop step n 0 h
    simpa using this

/-- Witness for C3 on the sweep `100:110:2,10`: its first element, its
truncation property, and its on-the-near-side property at position 0. -/
theorem gen_float_sweep_spec_witness :
    ((100 : ℚ) + 2 * ((0 : ℕ) : ℚ) = 100 + 2 * ((0 : ℕ) : ℚ)
      ∧ (if (100 : ℚ) ≤ 110 then (100 : ℚ) + 2 * ((0 : ℕ) : ℚ) < 110
         else (110 : ℚ) < 100 + 2 * ((0 : ℕ) : ℚ)))
    ∧ (if (100 : ℚ) ≤ 110
       then (110 : ℚ) ≤ 100 + 2 * ((gen_float 100 110 2 10).length : ℚ)
       else 100 + 2 * ((gen_float 100 110 2 10).length : ℚ) ≤ 110) :=
  ⟨(gen_float_sweep_spec 100 110 2 10).2.1 0 (100 + 2 * ((0 : ℕ) : ℚ))
      (by norm_num [gen_float, gen_float_from]),
   (gen_float_sweep_spec 100 110 2 10).2.2.1
      (by norm_num [gen_float, gen_float_from])⟩

/-- C10: a sweep whose start equals its stop yields the empty sequence:
the direction test `start > stop` fails so the progression is classified
ascending, and the first value `start + step * 0 = start` already
satisfies `stop <= price`, stopping iteration before anything is
yielded, whatever the step and the count. -/
theorem gen_float_start_eq_stop (s step : ℚ) (n : ℕ) :
    gen_float s s step n = [] := by
  cases n with
  | zero => rfl
  | succ m => simp [gen_float, gen_float_from]

/-- Truncation toward zero never grows the magnitude. -/
lemma truncQ_abs_le (q : ℚ) : |(truncQ q : ℚ)| ≤ |q| := by
  rw [truncQ]
  by_cases h : 0 ≤ q
  · rw [if_pos h, abs_of_nonneg h,
      abs_of_nonneg (by exact_mod_cast Int.floor_nonneg.mpr h)]
    exact Int.floor_le q
  · push_neg at h
    have hc : ⌈q⌉ ≤ (0 : ℤ) := Int.ceil_le.mpr (by exact_mod_cast h.le)
    rw [if_neg (not_le.mpr h), abs_of_neg h, abs_of_nonpos (by exact_mod_cast hc)]
    exact neg_le_neg (Int.le_ceil q)

/-- Truncation toward zero is off by strictly less than one unit. -/
lemma abs_sub_truncQ_lt_one (q : ℚ) : |q - (truncQ q : ℚ)| < 1 := by
  rw [truncQ]
  by_cases h : 0 ≤ q
  · rw [if_pos h, abs_of_nonneg (sub_nonneg.mpr (Int.floor_le q))]
    have := Int.lt_floor_add_one q
    linarith
  · rw [if_neg h, abs_of_nonpos (sub_nonpos.mpr (Int.le_ceil q))]
    have := Int.ceil_lt_add_one q
    linarith

/-- C8: `round_price` truncates toward zero to the tick size of the
instrument: the result is an integer multiple of the tick (1 for
"btc_jpy", 1/10000 for every other pair), its magnitude never exceeds the
input (so it never rounds to nearest, which would sometimes grow the
magnitude), and it is below the input by strictly less than one tick; in
particular `round_price "btc_jpy" 123.789 = 123` and
`round_price "xem_jpy" 43210.98765 = 43210.9876`. -/
theorem round_price_spec (cp : String) (p : ℚ) :
    (∃ k : ℤ, round_price cp p
        = (k : ℚ) * (if cp = "btc_jpy" then 1 else 1 / 10000))
    ∧ |round_price cp p| ≤ |p|
    ∧ |p - round_price cp p| < (if cp = "btc_jpy" then 1 else 1 / 10000)
    ∧ round_price "btc_jpy" (123789 / 1000) = 123
    ∧ round_price "xem_jpy" (4321098765 / 100000) = 432109876 / 10000 := by
  have hconc1 : round_price "btc_jpy" (123789 / 1000) = 123 := by
    norm_num [round_price, truncQ]
  have hconc2 : round_price "xem_jpy" (4321098765 / 100000) = 432109876 / 10000 := by
    rw [round_price, if_neg (by decide)]
    norm_num [truncQ]
  by_cases hcp : cp = "btc_jpy"
  · refine ⟨⟨truncQ p, ?_⟩, ?_, ?_, hconc1, hconc2⟩
    · rw [round_price, if_pos hcp, if_pos hcp, mul_one]
    · rw [round_price, if_pos hcp]
      exact truncQ_abs_le p
    · rw [round_price, if_pos hcp, if_pos hcp]
      exact abs_sub_truncQ_lt_one p
  · refine ⟨⟨truncQ (p * 10000), ?_⟩, ?_, ?_, hconc1, hconc2⟩
    · rw [round_price, if_neg hcp, if_neg hcp]
      ring
    · rw [round_price, if_neg hcp]
      have h1 := truncQ_abs_le (p * 10000)
      rw [abs_mul, abs_of_pos (show (0 : ℚ) < 10000 by norm_num)] at h1
      rw [abs_div, abs_of_pos (show (0 : ℚ) < 10000 by norm_num),
        div_le_iff₀ (show (0 : ℚ) < 10000 by norm_num)]
      linarith
    · rw [round_price, if_neg hcp, if_neg hcp]
      have h2 := abs_sub_truncQ_lt_one (p * 10000)
      have he : p - (truncQ (p * 10000) : ℚ) / 10000
          = (p * 10000 - (truncQ (p * 10000) : ℚ)) / 10000 := by ring
      rw [he, abs_div, abs_of_pos (show (0 : ℚ) < 10000 by norm_num),
        div_lt_div_iff₀ (show (0 : ℚ) < 10000 by norm_num)
          (show (0 : ℚ) < 10000 by norm_num)]
      linarith

/-- C5 (amended): for an update-selected item whose `amount_done` equals
its `amount`, the sweep never sets the price field: the dispatched mapping
keeps exactly the price value of the base parameters (absent when the base
command line carried none), whatever the swept price value was; each of
limit and stop is overwritten with its swept value, normalized via
`round_price` for the own currency pair of the item, exactly when that value is
non-null and non-zero, and a null or zero swept value leaves the base
field untouched, so it is never normalized nor written. -/
theorem update_params_filled_spec (base : BaseParams) (x : Item)
    (p l s : Option ℚ) (h : x.amount_done = some x.amount) :
    (build_update_params true base x p l s).price = base.price
    ∧ (∀ v : ℚ, l = some v → v ≠ 0 →
        (build_update_params true base x p l s).limit
          = some (round_price x.currency_pair v))
    ∧ ((l = none ∨ l = some 0) →
        (build_update_params true base x p l s).limit = base.limit)
    ∧ (∀ v : ℚ, s = some v → v ≠ 0 →
        (build_update_params true base x p l s).stop
          = some (round_price x.currency_pair v))
    ∧ ((s = none ∨ s = some 0) →
        (build_update_params true base x p l s).stop = base.stop) := by
  refine ⟨?_, ?_, ?_, ?_, ?_⟩
  · simp [build_update_params, h, update_field]
  · intro v hv hv0
    subst hv
    simp [build_update_params, update_field, hv0]
  · intro hv
    rcases hv with hv | hv <;> subst hv <;> simp [build_update_params, update_field]
  · intro v hv hv0
    subst hv
    simp [build_update_params, update_field, hv0]
  · intro hv
    rcases hv with hv | hv <;> subst hv <;> simp [build_update_params, update_field]

/-- Witness for C5 (amended): a fully filled item with base price 100,
swept price 5, swept limit 3: the limit field is set to the normalized 3. -/
theorem update_params_filled_witness :
    (build_update_params true ⟨none, some 100, none, none⟩
        ⟨7, "btc_jpy", 1, some 1⟩ (some 5) (some 3) none).limit
      = some (round_price "btc_jpy" 3) :=
  (update_params_filled_spec ⟨none, some 100, none, none⟩
      ⟨7, "btc_jpy", 1, some 1⟩ (some 5) (some 3) none rfl).2.1 3 rfl
    (by norm_num)

/-- C5 counterexample: when the base command-line parameters already
contain `price=100`, a fully filled item is dispatched with that price
field still present, so the dispatched update parameters do contain a
price field. -/
theorem update_price_field_cex :
    (build_update_params true ⟨none, some 100, none, none⟩
        ⟨7, "btc_jpy", 1, some 1⟩ none none none).price = some 100 := by
  simp [build_update_params, update_field]

/-- In serial mode the dispatch loop emits a strict spawn-join alternation
over the tasks it selects. -/
lemma dispatch_loop_serial_shape (leverage : Bool) (base : BaseParams)
    (cIdx uIdx : List ℕ) :
    ∀ (items : List Item) (i : ℕ) (pg lg sg : List (Option ℚ)),
      dispatch_loop true leverage base cIdx uIdx items i pg lg sg [] =
        (task_list leverage base cIdx uIdx items i pg lg sg).bind
          (fun t => [Event.spawn t, Event.join t]) := by
  intro items
  induction items with
  | nil => intro i pg lg sg; simp [dispatch_loop, task_list]
  | cons x rest ih =>
    intro i pg lg sg
    by_cases hc : i ∈ cIdx
    · simp [dispatch_loop, task_list, hc, ih]
    · by_cases hu : i ∈ uIdx
      · rcases pg with _ | ⟨pv, pgr⟩
        · simp [dispatch_loop, task_list, hc, hu]
        · rcases lg with _ | ⟨lv, lgr⟩
          · simp [dispatch_loop, task_list, hc, hu]
          · rcases sg with _ | ⟨sv, sgr⟩
            · simp [dispatch_loop, task_list, hc, hu]
            · simp [dispatch_loop, task_list, hc, hu, ih]
      · simp [dispatch_loop, task_list, hc, hu, ih]

/-- In parallel mode the dispatch loop emits all spawns in selection
order, followed by the joins of the accumulated wave. -/
lemma dispatch_loop_parallel_shape (leverage : Bool) (base : BaseParams)
    (cIdx uIdx : List ℕ) :
    ∀ (items : List Item) (i : ℕ) (pg lg sg : List (Option ℚ))
      (glist : List Task),
      dispatch_loop false leverage base cIdx uIdx items i pg lg sg glist =
        (task_list leverage base cIdx uIdx items i pg lg sg).map Event.spawn
          ++ (glist ++ task_list leverage base cIdx uIdx items i pg lg sg).map
              Event.join := by
  intro items
  induction items with
  | nil => intro i pg lg sg glist; simp [dispatch_loop, task_list]
  | cons x rest ih =>
    intro i pg lg sg glist
    by_cases hc : i ∈ cIdx
    · simp [dispatch_loop, task_list, hc, ih]
    · by_cases hu : i ∈ uIdx
      · rcases pg with _ | ⟨pv, pgr⟩
        · simp [dispatch_loop, task_list, hc, hu]
        · rcases lg with _ | ⟨lv, lgr⟩
          · simp [dispatch_loop, task_list, hc, hu]
          · rcases sg with _ | ⟨sv, sgr⟩
            · simp [dispatch_loop, task_list, hc, hu]
            · simp [dispatch_loop, task_list, hc, hu, ih]
      · simp [dispatch_loop, task_list, hc, hu, ih]

/-- Reading spawned tasks distributes over concatenation. -/
lemma spawned_append (a b : List Event) :
    spawned (a ++ b) = spawned a ++ spawned b := by
  simp [spawned, List.filterMap_append]

/-- Join events carry no spawned tasks. -/
lemma spawned_map_join (ts : List Task) : spawned (ts.map Event.join) = [] := by
  induction ts with
  | nil => rfl
  | cons t ts ih => simp only [List.map_cons, spawned, List.filterMap_cons] at ih ⊢; exact ih

/-- A block of spawn events carries exactly its tasks. -/
lemma spawned_map_spawn (ts : List Task) : spawned (ts.map Event.spawn) = ts := by
  induction ts with
  | nil => rfl
  | cons t ts ih => simp [spawned] at ih ⊢; exact ih

/-- A spawn-join alternation carries exactly its tasks. -/
lemma spawned_bind_pair (ts : List Task) :
    spawned (ts.bind fun t => [Event.spawn t, Event.join t]) = ts := by
  induction ts with
  | nil => rfl
  | cons t ts ih => simp [spawned] at ih ⊢; exact ih

/-- In both modes the run spawns exactly the selected task list. -/
lemma spawned_main_dispatch (serial leverage : Bool) (base : BaseParams)
    (cIdx uIdx : List ℕ) (items : List Item) (pg lg sg : List (Option ℚ)) :
    spawned (main_dispatch serial leverage base cIdx uIdx items pg lg sg)
      = task_list leverage base cIdx uIdx items 1 pg lg sg := by
  have hrelist :
      spawned (if cIdx ≠ [] ∨ uIdx ≠ [] then [Event.relist] else []) = [] := by
    split <;> rfl
  cases serial
  · rw [main_dispatch, dispatch_loop_parallel_shape, spawned_append,
      spawned_append, spawned_map_spawn, spawned_map_join, hrelist]
    simp
  · rw [main_dispatch, dispatch_loop_serial_shape, spawned_append,
      spawned_bind_pair, hrelist]
    simp

/-- The loop never selects more update tasks than the price generator can
still yield: each update consumes one value and the first exhaustion stops
all further selection. -/
lemma task_list_update_count (leverage : Bool) (base : BaseParams)
    (cIdx uIdx : List ℕ) :
    ∀ (items : List Item) (i : ℕ) (pg lg sg : List (Option ℚ)),
      (task_list leverage base cIdx uIdx items i pg lg sg).countP Task.isUpdate
        ≤ pg.length := by
  intro items
  induction items with
  | nil => intro i pg lg sg; simp [task_list]
  | cons x rest ih =>
    intro i pg lg sg
    by_cases hc : i ∈ cIdx
    · have := ih (i + 1) pg lg sg
      simp only [task_list, if_pos hc, List.countP_cons, Task.isUpdate,
        Bool.false_eq_true, if_false, add_zero]
      exact this
    · by_cases hu : i ∈ uIdx
      · rcases pg with _ | ⟨pv, pgr⟩
        · simp [hc, hu, task_list]
        · rcases lg with _ | ⟨lv, lgr⟩
          · simp [hc, hu, task_list]
          · rcases sg with _ | ⟨sv, sgr⟩
            · simp [hc, hu, task_list]
            · simp only [task_list, if_neg hc, if_pos hu, List.countP_cons,
                List.length_cons]
              have := ih (i + 1) pgr lgr sgr
              simp [Task.isUpdate]
              omega
      · simp only [task_list, if_neg hc, if_neg hu]
        exact ih (i + 1) pg lg sg

/-- Whenever any selection was given, the run still ends with the
re-listing call, whatever happened during dispatch. -/
lemma main_dispatch_relist (serial leverage : Bool) (base : BaseParams)
    (cIdx uIdx : List ℕ) (items : List Item) (pg lg sg : List (Option ℚ))
    (h : cIdx ≠ [] ∨ uIdx ≠ []) :
    (main_dispatch serial leverage base cIdx uIdx items pg lg sg).getLast?
      = some Event.relist := by
  rw [main_dispatch, if_pos h]
  exact List.getLast?_concat _

/-- C6: exhaustion of a sweep generator while update-selected indexes
remain truncates the remaining dispatch instead of erroring the run: the
number of spawned update tasks never exceeds what the price generator
could yield, the run still proceeds to the final re-listing whenever any
selection was given (so the exhaustion is not fatal to the run and the
already spawned and joined tasks stand), and concretely, with five
update-selected items and generators yielding only twice, exactly the
first two update tasks are dispatched. -/
theorem sweep_exhaustion_spec :
    (∀ (serial leverage : Bool) (base : BaseParams) (cIdx uIdx : List ℕ)
        (items : List Item) (pg lg sg : List (Option ℚ)),
      (spawned (main_dispatch serial leverage base cIdx uIdx items pg lg sg)).countP
          Task.isUpdate ≤ pg.length)
    ∧ (∀ (serial leverage : Bool) (base : BaseParams) (cIdx uIdx : List ℕ)
        (items : List Item) (pg lg sg : List (Option ℚ)),
        cIdx ≠ [] ∨ uIdx ≠ [] →
        (main_dispatch serial leverage base cIdx uIdx items pg lg sg).getLast?
          = some Event.relist)
    ∧ spawned (main_dispatch false true base0 [] [1, 2, 3, 4, 5] items0 pg0 lg0 lg0)
        = [Task.update ⟨11, none, some 100, none, none⟩,
           Task.update ⟨12, none, some 102, none, none⟩] := by
  refine ⟨?_, ?_, ?_⟩
  · intro serial leverage base cIdx uIdx items pg lg sg
    rw [spawned_main_dispatch]
    exact task_list_update_count leverage base cIdx uIdx items 1 pg lg sg
  · intro serial leverage base cIdx uIdx items pg lg sg h
    exact main_dispatch_relist serial leverage base cIdx uIdx items pg lg sg h
  · rw [spawned_main_dispatch]
    norm_num [task_list, items0, pg0, lg0, base0, build_update_params,
      update_field, round_price, truncQ,
      show ((none : Option ℚ) = some 1) = False by simp]

/-- Witness for C6: the concrete truncated run still ends with the
re-listing event. -/
theorem sweep_exhaustion_spec_witness :
    (main_dispatch false true base0 [] [1, 2, 3, 4, 5] items0 pg0 lg0 lg0).getLast?
      = some Event.relist :=
  sweep_exhaustion_spec.2.1 false true base0 [] [1, 2, 3, 4, 5] items0 pg0 lg0 lg0
    (by decide)

/-- C9: in serial mode the events of a run are a strict alternation,
spawn of task 1, join of task 1, spawn of task 2, join of task 2, and so
on, so task N+1 is never spawned before task N has fully joined; in
parallel mode all selected tasks are spawned first (all may be in flight
together) and all of them are joined before anything further happens; in
both modes the re-listing event, when a selection was given, comes after
every join. -/
theorem serial_parallel_waves (leverage : Bool) (base : BaseParams)
    (cIdx uIdx : List ℕ) (items : List Item) (pg lg sg : List (Option ℚ)) :
    main_dispatch true leverage base cIdx uIdx items pg lg sg
      = (task_list leverage base cIdx uIdx items 1 pg lg sg).bind
          (fun t => [Event.spawn t, Event.join t])
        ++ (if cIdx ≠ [] ∨ uIdx ≠ [] then [Event.relist] else [])
    ∧ main_dispatch false leverage base cIdx uIdx items pg lg sg
      = ((task_list leverage base cIdx uIdx items 1 pg lg sg).map Event.spawn
          ++ (task_list leverage base cIdx uIdx items 1 pg lg sg).map Event.join)
        ++ (if cIdx ≠ [] ∨ uIdx ≠ [] then [Event.relist] else []) := by
  constructor
  · rw [main_dispatch, dispatch_loop_serial_shape]
  · rw [main_dispatch, dispatch_loop_parallel_shape]
    simp

end Zaifcli
